import Mathlib

/-!
A shallow embedding of the PTY core `fs/pty.c` of the ish kernel-emulation
layer, together with theorems checking the natural-language specification
against it.

Modelling conventions:
* C strings are lists of byte values (`List Nat`): 47 is `'/'`, 45 is `'-'`,
  and 48..57 are the decimal digits `'0'..'9'`.
* Machine integers are `Int`/`Nat`; `INT_MAX = 2^31 - 1` appears where the
  code compares against it.
* Pointers to terminal objects are identifiers (`Nat`) resolved in a heap
  `Nat → Option TtyObj`; a dereference of an absent reference is modelled by
  an `Option.none` result ("crash"), so an embedded operation is total
  (never `none`) exactly when the code never dereferences an invalid
  pointer.
* The global array `pty_slave.ttys` of `MAX_PTYS` slots is modelled as a
  total function `Nat → Option Nat` (slot index to optional slave id).
  Indices `0 ≤ i < MAX_PTYS` are the array proper; an access at index
  `MAX_PTYS` — which the C code can perform, see `devpts_pty_exists` —
  reads the memory adjacent to the array, which the core never writes, so
  the function's value there models arbitrary garbage beyond the array.
-/

/-- `MAX_PTYS` = `1 << 12` (fs/pty.c line 63): capacity of the slave table. -/
def MAX_PTYS : Nat := 4096

/-- `INT_MAX` of the C `int` type. -/
def INT_MAX : Nat := 2147483647

/-- Modelled from the spec: error codes from `kernel/errno.h` (not under
src/), following the negated-errno convention; `_ENOENT = -2` is documented
by the comment above `devpts_get_pty_num` in fs/pty.c. -/
def _EIO : Int := -5

/-- Modelled from the spec: not-found condition, `-2` (see fs/pty.c comment
"I'm lucky that ENOENT is -2 and not -1"). -/
def _ENOENT : Int := -2

/-- Modelled from the spec: invalid-argument condition. -/
def _EINVAL : Int := -22

/-- Modelled from the spec: resource-exhaustion condition. -/
def _ENOSPC : Int := -28

/-- Modelled from the spec: the `TIOCSPTLCK` control request code
(`SET_SLAVE_LOCK`), from fs/tty.h (not under src/). Only its distinctness
from `TIOCGPTN_` matters to the core. -/
def TIOCSPTLCK_ : Int := 0x40045431

/-- Modelled from the spec: the `TIOCGPTN` control request code
(`GET_SLAVE_NUMBER`), from fs/tty.h (not under src/). -/
def TIOCGPTN_ : Int := 0x80045430

/-- C `isdigit` on a byte value: decimal digits are 48..57. -/
def isdigit (b : Nat) : Bool := 48 ≤ b && b ≤ 57

/-- `isdigits` (fs/pty.c lines 103-108): every byte of the string is a
decimal digit. -/
def isdigits : List Nat → Bool
  | [] => true
  | b :: rest => if isdigit b then isdigits rest else false

/-- `strchr(s, '/') != NULL`: the string contains a `'/'` byte (47). -/
def strchr_slash : List Nat → Bool
  | [] => false
  | b :: rest => if b = 47 then true else strchr_slash rest

/-- `atol` on a pure-digit string (the code only calls it after `isdigits`
succeeds): the numeric value of the decimal digits. -/
def digitsToNat (l : List Nat) : Nat :=
  l.foldl (fun a b => a * 10 + (b - 48)) 0

/-- `sprintf("%d", n)` for a nonnegative value: the canonical decimal
rendering (no leading zeros), as a byte string. -/
def natToString (n : Nat) : List Nat :=
  if h : n < 10 then [48 + n]
  else natToString (n / 10) ++ [48 + n % 10]
decreasing_by exact Nat.div_lt_self (by omega) (by omega)

/-- `sprintf("%d", n)` for any `int` value (a minus sign byte 45 when
negative). -/
def sprintf_d (n : Int) : List Nat :=
  if n < 0 then 45 :: natToString (-n).toNat else natToString n.toNat

/-- `devpts_pty_exists` (fs/pty.c lines 112-119): range test then a read of
`pty_slave.ttys[pty_num]` under the table lock. NOTE the faithful `>`
(not `≥`) in the range test: `pty_num = MAX_PTYS` passes it, and the table
read is then at index `MAX_PTYS`, one past the array. -/
def devpts_pty_exists (ttys : Nat → Option Nat) (pty_num : Int) : Bool :=
  if pty_num < 0 ∨ pty_num > (MAX_PTYS : Int) then false
  else (ttys pty_num.toNat).isSome

/-- `devpts_get_pty_num` (fs/pty.c lines 123-141): resolves a devpts path
to `-1` (root), a pair number, or `_ENOENT`. -/
def devpts_get_pty_num (ttys : Nat → Option Nat) (path : List Nat) : Int :=
  match path with
  | [] => -1
  | c :: rest =>
    if c ≠ 47 ∨ rest = [] ∨ strchr_slash rest then _ENOENT
    else if ¬ isdigits rest then _ENOENT
    else
      let pty_long := digitsToNat rest
      if pty_long > INT_MAX then _ENOENT
      else if ¬ devpts_pty_exists ttys (Int.ofNat pty_long) then _ENOENT
      else Int.ofNat pty_long

/-- `devpts_open` (fs/pty.c lines 143-150): resolve, fail with `_ENOENT` on
resolution failure, otherwise produce a handle carrying the resolved
number (`fd->pty_num`). -/
def devpts_open (ttys : Nat → Option Nat) (path : List Nat) :
    Except Int Int :=
  let pty_num := devpts_get_pty_num ttys path
  if pty_num = _ENOENT then Except.error _ENOENT
  else Except.ok pty_num

/-- `devpts_getpath` (fs/pty.c lines 152-158): `""` for the root sentinel
`-1`, otherwise `"/" ++ sprintf("%d", pty_num)`. -/
def devpts_getpath (pty_num : Int) : List Nat :=
  if pty_num = -1 then [] else 47 :: sprintf_d pty_num

/-- The scan of `devpts_readdir` (fs/pty.c lines 198-201): starting at
candidate `i` (the code sets `pty_num = fd->offset - 1` and the `do`
loop's increment makes `fd->offset` the first candidate), advance while
`pty_num < MAX_PTYS && !devpts_pty_exists(pty_num)`. -/
def readdirScan (ttys : Nat → Option Nat) (i : Nat) : Nat :=
  if h : i < MAX_PTYS then
    if devpts_pty_exists ttys (Int.ofNat i) then i
    else readdirScan ttys (i + 1)
  else i
decreasing_by exact Nat.sub_lt_sub_left h (Nat.lt_succ_self i)

/-- `devpts_readdir` (fs/pty.c lines 195-207) on the root handle, given the
handle's current offset: yields `none` ("no more entries", return 0) when
the scan reaches `MAX_PTYS`, otherwise one entry: the found pair number,
its decimal-string name (`sprintf(entry->name, "%d", pty_num)`) and the
inode `pty_num + 3`. -/
def devpts_readdir (ttys : Nat → Option Nat) (offset : Nat) :
    Option (Nat × List Nat × Nat) :=
  let pty_num := readdirScan ttys offset
  if pty_num ≥ MAX_PTYS then none
  else some (pty_num, natToString pty_num, pty_num + 3)

/-- Tagged result of devpts path resolution, following the spec's words
("use a tagged result, not a shared integer sentinel space"). -/
inductive PathResolution : Type
  | root : PathResolution
  | ptyNum (n : Nat) : PathResolution
  | notFound : PathResolution
deriving DecidableEq, Repr

/-- Modelled from the spec (§4.4 path grammar), for comparison with
`devpts_get_pty_num`: the empty path is the root; a path of the form
`'/'` followed by one or more decimal digits resolves to the digits' value
provided the value is representable and currently present in the Global
Slave Table (whose domain is `0 ≤ n < MAX_PTYS`); everything else is an
error. -/
def devpts_resolve_spec (ttys : Nat → Option Nat) (path : List Nat) :
    PathResolution :=
  match path with
  | [] => PathResolution.root
  | c :: rest =>
    if c = 47 ∧ rest ≠ [] ∧ isdigits rest then
      let v := digitsToNat rest
      if v ≤ INT_MAX ∧ v < MAX_PTYS ∧ (ttys v).isSome then
        PathResolution.ptyNum v
      else PathResolution.notFound
    else PathResolution.notFound

/-- The integer encoding `devpts_get_pty_num` uses for a tagged resolution
result: `-1` for root, the number itself, `_ENOENT` for not-found. -/
def encodeResolution : PathResolution → Int
  | PathResolution.root => -1
  | PathResolution.ptyNum n => Int.ofNat n
  | PathResolution.notFound => _ENOENT

/-- A terminal object (external `struct tty`), restricted to the fields the
PTY core reads and writes: its number, its reference count, and its PTY
pair state `pty.other` (an optional reference, by heap id, to the paired
terminal) and `pty.locked`. -/
structure TtyObj : Type where
  num : Nat
  refcount : Nat
  other : Option Nat
  locked : Bool
deriving DecidableEq, Repr

/-- A heap of terminal objects addressed by id; `none` is unallocated (or
freed) memory, so reading it models a wild dereference. -/
def Heap : Type := Nat → Option TtyObj

/-- Heap update at one id. -/
def hupd (h : Heap) (i : Nat) (t : TtyObj) : Heap :=
  fun j => if j = i then some t else h j

/-- Modelled from the spec: `tty_alloc` (fs/tty.c, not under src/)
constructs a fresh terminal object with the given number; its PTY pair
state starts zeroed (no `other` reference, unlocked). The caller
(`pty_master_init`) overwrites `refcount` immediately. -/
def tty_alloc (num : Nat) : TtyObj :=
  { num := num, refcount := 0, other := none, locked := false }

/-- External calls and lock events issued by `pty_master_cleanup`, in
program order. `clear_other` stands for the `slave->pty.other = NULL`
store, `hangup` for `tty_hangup(slave)` (external), `release` for
`tty_release(slave)` (external drop of the counted reference). -/
inductive Ev : Type
  | clear_other : Ev
  | lock_slave : Ev
  | hangup : Ev
  | unlock_slave : Ev
  | release : Ev
deriving DecidableEq, Repr

/-- `pty_master_init` (fs/pty.c lines 13-21), invoked on a master terminal
at id `mId`; `sId` is the fresh heap id at which `tty_alloc` places the new
slave object. Steps, in source order: allocate the slave sharing
`tty->num`; set its refcount to 1; store it at `pty_slave.ttys[tty->num]`;
cross-link `tty->pty.other = slave`, `slave->pty.other = tty`; set
`slave->pty.locked = true`; return 0. A `none` result models the
dereference of an absent master pointer. -/
def pty_master_init (h : Heap) (ttys : Nat → Option Nat) (mId sId : Nat) :
    Option (Heap × (Nat → Option Nat) × Int) :=
  match h mId with
  | none => none
  | some m =>
    let slave := { tty_alloc m.num with refcount := 1 }
    let ttys' := fun n => if n = m.num then some sId else ttys n
    let m' := { m with other := some sId }
    let slave' := { slave with other := some mId, locked := true }
    some (hupd (hupd h sId slave') mId m', ttys', 0)

/-- `pty_master_cleanup` (fs/pty.c lines 23-30): read
`slave = tty->pty.other`; clear `slave->pty.other`; under the slave's lock
invoke `tty_hangup(slave)`; then `tty_release(slave)` (modelled as the
drop of one counted reference; destruction at zero is the external
layer's further step). The event trace records program order. A `none`
result models a dereference of an absent reference. -/
def pty_master_cleanup (h : Heap) (mId : Nat) :
    Option (Heap × List Ev) :=
  match h mId with
  | none => none
  | some m =>
    match m.other with
    | none => none
    | some sId =>
      match h sId with
      | none => none
      | some s =>
        let s1 := { s with other := none }
        let s2 := { s1 with refcount := s1.refcount - 1 }
        some (hupd h sId s2,
          [Ev.clear_other, Ev.lock_slave, Ev.hangup, Ev.unlock_slave,
           Ev.release])

/-- `pty_slave_open` (fs/pty.c lines 32-38): refuse with `_EIO` when the
pair link is absent or the pair is still locked, otherwise succeed. The
function writes no state; the returned object is the unchanged input. -/
def pty_slave_open (t : TtyObj) : Int × TtyObj :=
  if t.other = none then ( _EIO, t)
  else if t.locked then ( _EIO, t)
  else (0, t)

/-- `pty_ioctl` (fs/pty.c lines 40-53), invoked on the terminal at id
`tId` with a command and the `dword_t` the `arg` pointer holds. Returns
the updated heap, the return code, and the `dword_t` left in `arg`
(`TIOCGPTN_` writes `slave->num` into it). `slave = tty->pty.other` is
read up front; the two recognized commands dereference it (a `none`
result models that dereference failing); any other command returns
`_EINVAL` having touched nothing. -/
def pty_ioctl (h : Heap) (tId : Nat) (cmd : Int) (arg : Nat) :
    Option (Heap × Int × Nat) :=
  match h tId with
  | none => none
  | some t =>
    if cmd = TIOCSPTLCK_ then
      match t.other with
      | none => none
      | some sId =>
        match h sId with
        | none => none
        | some s =>
          some (hupd h sId { s with locked := arg ≠ 0 }, 0, arg)
    else if cmd = TIOCGPTN_ then
      match t.other with
      | none => none
      | some sId =>
        match h sId with
        | none => none
        | some s => some (h, 0, s.num)
    else some (h, _EINVAL, arg)

/-- `pty_write` (fs/pty.c lines 55-57): forward the buffer to
`tty_input(tty->pty.other, buf, len, blocking)` (external). The result
records the external call's target and arguments; a `none` result models
`tty_input` dereferencing an absent pair link. -/
def pty_write (t : TtyObj) (buf : List Nat) (blocking : Bool) :
    Option (Nat × List Nat × Bool) :=
  match t.other with
  | none => none
  | some oId => some (oId, buf, blocking)

/-- `pty_return_eio` (fs/pty.c lines 59-61): the master driver's `open`
and the slave driver's `init` — always `_EIO`. -/
def pty_return_eio : Int := _EIO

/-- The scan loop of `ptmx_open` (fs/pty.c lines 84-87): from candidate
`i` upward, stop at the first `pty_num` with `pty_slave.ttys[pty_num] ==
NULL`, or at `MAX_PTYS`. -/
def ptmx_scan (ttys : Nat → Option Nat) (i : Nat) : Nat :=
  if h : i < MAX_PTYS then
    if ttys i = none then i else ptmx_scan ttys (i + 1)
  else i
decreasing_by exact Nat.sub_lt_sub_left h (Nat.lt_succ_self i)

/-- Result of `ptmx_open`'s allocation decision: `err e` is an early
return carrying error `e`; `alloc n` marks the branch that goes on to
construct the master terminal for pair number `n` via the external
`tty_get(&pty_master, n)` (which runs `pty_master_init`) and to attach it
to the caller's file handle. -/
inductive PtmxResult : Type
  | err (e : Int) : PtmxResult
  | alloc (n : Nat) : PtmxResult
deriving DecidableEq, Repr

/-- `ptmx_open` (fs/pty.c lines 81-101), up to its allocation decision:
scan under `ttys_lock` for the first free pair number; if the scan reached
`MAX_PTYS`, fail with `_ENOSPC` before any terminal object is created;
otherwise proceed to construct the master for the found number. -/
def ptmx_open (ttys : Nat → Option Nat) : PtmxResult :=
  let pty_num := ptmx_scan ttys 0
  if pty_num = MAX_PTYS then PtmxResult.err _ENOSPC
  else PtmxResult.alloc pty_num

/-! ### Helper lemmas: digit strings -/

theorem isdigits_eq_all (l : List Nat) :
    isdigits l = l.all (fun b => isdigit b) := by
  induction l with
  | nil => rfl
  | cons b rest ih =>
    rw [isdigits]
    by_cases h : isdigit b <;> simp [h, ih]

theorem strchr_slash_eq_false_of_isdigits (l : List Nat)
    (h : isdigits l = true) : strchr_slash l = false := by
  induction l with
  | nil => rfl
  | cons b rest ih =>
    rw [isdigits] at h
    rw [strchr_slash]
    by_cases hb : isdigit b
    · simp [hb] at h
      have : b ≠ 47 := by
        unfold isdigit at hb
        simp at hb
        omega
      simp [this, ih h]
    · simp [hb] at h

theorem digitsToNat_append (l : List Nat) (b : Nat) :
    digitsToNat (l ++ [b]) = digitsToNat l * 10 + (b - 48) := by
  unfold digitsToNat
  rw [List.foldl_append]
  rfl

theorem digitsToNat_natToString (n : Nat) :
    digitsToNat (natToString n) = n := by
  induction n using Nat.strong_induction_on with
  | _ n ih =>
    rw [natToString]
    by_cases h : n < 10
    · simp only [h, dite_true]
      unfold digitsToNat
      simp only [List.foldl]
      omega
    · simp only [h, dite_false]
      rw [digitsToNat_append]
      rw [ih (n / 10) (Nat.div_lt_self (by omega) (by omega))]
      omega

theorem foldl_digits_ge (rest : List Nat) :
    ∀ a : Nat, a ≤ rest.foldl (fun a b => a * 10 + (b - 48)) a := by
  induction rest with
  | nil => intro a; simp
  | cons c rest ih =>
    intro a
    rw [List.foldl_cons]
    have h1 := ih (a * 10 + (c - 48))
    omega

theorem digitsToNat_pos (b : Nat) (rest : List Nat)
    (hb : isdigit b = true) (hb0 : b ≠ 48) :
    1 ≤ digitsToNat (b :: rest) := by
  unfold digitsToNat
  rw [List.foldl_cons]
  have h1 := foldl_digits_ge rest (0 * 10 + (b - 48))
  unfold isdigit at hb
  simp at hb
  omega

theorem natToString_digitsToNat (l : List Nat) (hd : isdigits l = true)
    (hne : l ≠ []) (hz : l.head? = some 48 → l = [48]) :
    natToString (digitsToNat l) = l := by
  induction l using List.reverseRecOn with
  | nil => exact absurd rfl hne
  | append_singleton xs b ih =>
    rw [isdigits_eq_all] at hd
    simp only [List.all_append, List.all_cons, List.all_nil,
      Bool.and_true, Bool.and_eq_true] at hd
    obtain ⟨hxs, hb⟩ := hd
    have hb' : 48 ≤ b ∧ b ≤ 57 := by
      unfold isdigit at hb; simp at hb; omega
    match xs with
    | [] =>
      rw [digitsToNat_append]
      show natToString (digitsToNat [] * 10 + (b - 48)) = [b]
      have : digitsToNat [] = 0 := rfl
      rw [this]
      rw [natToString]
      have hlt : 0 * 10 + (b - 48) < 10 := by omega
      simp only [hlt, dite_true]
      have : 48 + (0 * 10 + (b - 48)) = b := by omega
      rw [this]
    | c :: xs' =>
      have hc : isdigit c = true := by
        simp [List.all_cons] at hxs
        exact hxs.1
      have hcne : c ≠ 48 := by
        intro hc48
        have := hz (by simp [hc48])
        simp at this
      have hxsne : (c :: xs') ≠ [] := by simp
      have hxz : (c :: xs').head? = some 48 → (c :: xs') = [48] := by
        intro hh
        simp at hh
        exact absurd hh hcne
      have ihx := ih (by rw [isdigits_eq_all]; exact hxs) hxsne hxz
      have hpos : 1 ≤ digitsToNat (c :: xs') := digitsToNat_pos c xs' hc hcne
      rw [digitsToNat_append]
      set v' := digitsToNat (c :: xs') with hv'
      have hge : ¬ (v' * 10 + (b - 48) < 10) := by omega
      rw [natToString]
      simp only [hge, dite_false]
      have hdiv : (v' * 10 + (b - 48)) / 10 = v' := by omega
      have hmod : 48 + (v' * 10 + (b - 48)) % 10 = b := by omega
      rw [hdiv, ihx, hmod]

/-! ### Helper lemmas: the allocator scan and the readdir scan -/

theorem ptmx_scan_char (ttys : Nat → Option Nat) (i : Nat) :
    i ≤ ptmx_scan ttys i ∧
    (i ≤ MAX_PTYS → ptmx_scan ttys i ≤ MAX_PTYS) ∧
    (ptmx_scan ttys i < MAX_PTYS → ttys (ptmx_scan ttys i) = none) ∧
    (∀ m, i ≤ m → m < ptmx_scan ttys i → (ttys m).isSome) := by
  have H : ∀ k i, MAX_PTYS - i ≤ k →
      i ≤ ptmx_scan ttys i ∧
      (i ≤ MAX_PTYS → ptmx_scan ttys i ≤ MAX_PTYS) ∧
      (ptmx_scan ttys i < MAX_PTYS → ttys (ptmx_scan ttys i) = none) ∧
      (∀ m, i ≤ m → m < ptmx_scan ttys i → (ttys m).isSome) := by
    intro k
    induction k with
    | zero =>
      intro i hk
      have hge : ¬ i < MAX_PTYS := by omega
      rw [ptmx_scan, dif_neg hge]
      exact ⟨le_refl i, fun h => h, fun hlt2 => absurd hlt2 hge,
        fun m h1 h2 => absurd h2 (by omega)⟩
    | succ k ihk =>
      intro i hk
      by_cases hlt : i < MAX_PTYS
      · by_cases hfree : ttys i = none
        · rw [ptmx_scan, dif_pos hlt, if_pos hfree]
          exact ⟨le_refl i, fun h => h, fun _ => hfree,
            fun m h1 h2 => absurd h2 (by omega)⟩
        · rw [ptmx_scan, dif_pos hlt, if_neg hfree]
          obtain ⟨r1, r2, r3, r4⟩ := ihk (i + 1) (by omega)
          refine ⟨by omega, fun _ => r2 (by omega), r3, ?_⟩
          intro m h1 h2
          by_cases hm : m = i
          · subst hm
            exact Option.ne_none_iff_isSome.mp hfree
          · exact r4 m (by omega) h2
      · rw [ptmx_scan, dif_neg hlt]
        exact ⟨le_refl i, fun h => h, fun hlt2 => absurd hlt2 hlt,
          fun m h1 h2 => absurd h2 (by omega)⟩
  exact H (MAX_PTYS - i) i (le_refl _)

theorem devpts_pty_exists_inbounds (ttys : Nat → Option Nat) (j : Nat)
    (h : j < MAX_PTYS) :
    devpts_pty_exists ttys (Int.ofNat j) = (ttys j).isSome := by
  unfold devpts_pty_exists
  simp only [Int.ofNat_eq_natCast]
  rw [if_neg (by omega)]
  simp

theorem readdirScan_char (ttys : Nat → Option Nat) (i : Nat) :
    i ≤ readdirScan ttys i ∧
    (i ≤ MAX_PTYS → readdirScan ttys i ≤ MAX_PTYS) ∧
    (readdirScan ttys i < MAX_PTYS → (ttys (readdirScan ttys i)).isSome) ∧
    (∀ m, i ≤ m → m < readdirScan ttys i → ttys m = none) := by
  have H : ∀ k i, MAX_PTYS - i ≤ k →
      i ≤ readdirScan ttys i ∧
      (i ≤ MAX_PTYS → readdirScan ttys i ≤ MAX_PTYS) ∧
      (readdirScan ttys i < MAX_PTYS → (ttys (readdirScan ttys i)).isSome) ∧
      (∀ m, i ≤ m → m < readdirScan ttys i → ttys m = none) := by
    intro k
    induction k with
    | zero =>
      intro i hk
      have hge : ¬ i < MAX_PTYS := by omega
      rw [readdirScan, dif_neg hge]
      exact ⟨le_refl i, fun h => h, fun hlt2 => absurd hlt2 hge,
        fun m h1 h2 => absurd h2 (by omega)⟩
    | succ k ihk =>
      intro i hk
      by_cases hlt : i < MAX_PTYS
      · by_cases hex : devpts_pty_exists ttys (Int.ofNat i) = true
        · rw [readdirScan, dif_pos hlt, if_pos hex]
          rw [devpts_pty_exists_inbounds ttys i hlt] at hex
          exact ⟨le_refl i, fun h => h, fun _ => hex,
            fun m h1 h2 => absurd h2 (by omega)⟩
        · rw [readdirScan, dif_pos hlt, if_neg hex]
          obtain ⟨r1, r2, r3, r4⟩ := ihk (i + 1) (by omega)
          refine ⟨by omega, fun _ => r2 (by omega), r3, ?_⟩
          intro m h1 h2
          by_cases hm : m = i
          · subst hm
            rw [devpts_pty_exists_inbounds ttys m hlt] at hex
            simp at hex
            exact hex
          · exact r4 m (by omega) h2
      · rw [readdirScan, dif_neg hlt]
        exact ⟨le_refl i, fun h => h, fun hlt2 => absurd hlt2 hlt,
          fun m h1 h2 => absurd h2 (by omega)⟩
  exact H (MAX_PTYS - i) i (le_refl _)

/-! ### Claim theorems -/

/-- C1: master cleanup performs, in this order: clear `slave.other`, then
(between taking and dropping the slave's lock) the external hang-up, then
the release of the core's reference to the slave; afterwards `slave.other`
is absent and a subsequent slave-open fails with `_EIO`. The event trace
is in program order, so the list equality fixes the order of the steps. -/
theorem pty_master_cleanup_order_and_teardown_safety
    (h : Heap) (mId sId : Nat) (m s : TtyObj)
    (hm : h mId = some m) (hlink : m.other = some sId)
    (hs : h sId = some s) :
    ∃ h' s',
      pty_master_cleanup h mId =
        some (h', [Ev.clear_other, Ev.lock_slave, Ev.hangup,
                   Ev.unlock_slave, Ev.release]) ∧
      h' sId = some s' ∧
      s'.other = none ∧
      s'.num = s.num ∧
      s'.refcount = s.refcount - 1 ∧
      (pty_slave_open s').1 = _EIO := by
  refine ⟨hupd h sId ⟨s.num, s.refcount - 1, none, s.locked⟩,
    ⟨s.num, s.refcount - 1, none, s.locked⟩, ?_, ?_, rfl, rfl, rfl, ?_⟩
  · simp only [pty_master_cleanup, hm, hlink, hs]
  · unfold hupd
    simp
  · unfold pty_slave_open
    simp

/-- Witness for C1 at a concrete linked pair. -/
theorem pty_master_cleanup_order_and_teardown_safety_witness :
    ∃ h' s',
      pty_master_cleanup
        (fun i => if i = 0 then some ⟨3, 1, some 1, false⟩
                  else if i = 1 then some ⟨3, 1, some 0, true⟩
                  else none) 0 =
        some (h', [Ev.clear_other, Ev.lock_slave, Ev.hangup,
                   Ev.unlock_slave, Ev.release]) ∧
      h' 1 = some s' ∧
      s'.other = none ∧
      s'.num = (⟨3, 1, some 0, true⟩ : TtyObj).num ∧
      s'.refcount = (⟨3, 1, some 0, true⟩ : TtyObj).refcount - 1 ∧
      (pty_slave_open s').1 = _EIO :=
  pty_master_cleanup_order_and_teardown_safety _ 0 1 _ _ rfl rfl rfl

/-- C2 (code bug): the range test of `devpts_pty_exists` is off by one
(`pty_num > MAX_PTYS` instead of `≥`), so the pair number `MAX_PTYS =
4096` — outside the table's domain `0 ≤ n < 4096` — passes the test and
the table is read at index `MAX_PTYS`, one past the array: two tables
that agree on every in-range index give different answers at `4096`,
i.e. the result depends on memory outside the Global Slave Table. -/
theorem devpts_pty_exists_reads_out_of_bounds :
    (∀ i, i < MAX_PTYS →
      (fun _ : Nat => (none : Option Nat)) i =
      (fun n : Nat => if n = MAX_PTYS then some 0 else none) i) ∧
    devpts_pty_exists (fun _ => none) (Int.ofNat MAX_PTYS) = false ∧
    devpts_pty_exists (fun n => if n = MAX_PTYS then some 0 else none)
      (Int.ofNat MAX_PTYS) = true := by
  refine ⟨?_, by decide, by decide⟩
  intro i hi
  show (none : Option Nat) = if i = MAX_PTYS then some 0 else none
  rw [if_neg (by omega)]

/-- Witness for C2: the two tables agree at the in-range index 5, yet the
existence check answers `true` at `4096` on the second. -/
theorem devpts_pty_exists_reads_out_of_bounds_witness :
    (fun _ : Nat => (none : Option Nat)) 5 =
      (fun n : Nat => if n = MAX_PTYS then some 0 else none) 5 ∧
    devpts_pty_exists (fun n => if n = MAX_PTYS then some 0 else none)
      (Int.ofNat MAX_PTYS) = true :=
  ⟨devpts_pty_exists_reads_out_of_bounds.1 5 (by decide),
   devpts_pty_exists_reads_out_of_bounds.2.2⟩

/-- C3: slave-open fails with `_EIO` exactly when the pair link is absent
or the pair is locked; otherwise it returns the success code 0; it never
changes the slave's state. -/
theorem pty_slave_open_eio_iff (t : TtyObj) :
    ((pty_slave_open t).1 = _EIO ↔ (t.other = none ∨ t.locked = true)) ∧
    ((pty_slave_open t).1 = _EIO ∨ (pty_slave_open t).1 = 0) ∧
    (pty_slave_open t).2 = t := by
  unfold pty_slave_open
  by_cases h1 : t.other = none
  · simp [h1]
  · by_cases h2 : t.locked = true
    · simp [h1, h2]
    · simp [h1, h2, _EIO]

/-- Witness for C3 at a concrete locked slave. -/
theorem pty_slave_open_eio_iff_witness :
    (pty_slave_open ⟨3, 1, some 0, true⟩).1 = _EIO :=
  (pty_slave_open_eio_iff ⟨3, 1, some 0, true⟩).1.mpr (Or.inr rfl)

/-- C4: on a master whose number is not yet in the Global Slave Table,
`pty_master_init` succeeds (returns 0) and establishes: a fresh slave with
the master's number and reference count 1, registered at
`GlobalSlaveTable[master.num]`, with `master.other = slave`,
`slave.other = master` and `slave.locked = true`. -/
theorem pty_master_init_post (h : Heap) (ttys : Nat → Option Nat)
    (mId sId : Nat) (m : TtyObj)
    (hm : h mId = some m) (hfresh : h sId = none) (hne : sId ≠ mId)
    (htbl : ttys m.num = none) :
    ∃ h' ttys',
      pty_master_init h ttys mId sId = some (h', ttys', 0) ∧
      h' sId = some { num := m.num, refcount := 1, other := some mId,
                      locked := true } ∧
      ttys' m.num = some sId ∧
      h' mId = some { m with other := some sId } := by
  unfold pty_master_init
  rw [hm]
  refine ⟨_, _, rfl, ?_, ?_, ?_⟩
  · unfold hupd tty_alloc
    simp [hne]
  · simp
  · unfold hupd
    simp

/-- Witness for C4 at a concrete fresh state. -/
theorem pty_master_init_post_witness :
    ∃ h' ttys',
      pty_master_init
        (fun i => if i = 0 then some ⟨7, 1, none, false⟩ else none)
        (fun _ => none) 0 1 = some (h', ttys', 0) ∧
      h' 1 = some { num := (⟨7, 1, none, false⟩ : TtyObj).num,
                    refcount := 1, other := some 0, locked := true } ∧
      ttys' (⟨7, 1, none, false⟩ : TtyObj).num = some 1 ∧
      h' 0 = some { (⟨7, 1, none, false⟩ : TtyObj) with other := some 1 } :=
  pty_master_init_post _ _ 0 1 _ rfl rfl (by decide) rfl

/-- C5: the allocator scan picks the first pair number (from 0 upward)
whose slot is absent; it fails with `_ENOSPC` — creating nothing, the
error return precedes terminal construction — exactly when all `MAX_PTYS`
slots are present. -/
theorem ptmx_open_first_free_or_nospc (ttys : Nat → Option Nat) :
    (ptmx_open ttys = PtmxResult.err _ENOSPC ↔
      ∀ n, n < MAX_PTYS → (ttys n).isSome) ∧
    (∀ n, ptmx_open ttys = PtmxResult.alloc n →
      n < MAX_PTYS ∧ ttys n = none ∧ ∀ m, m < n → (ttys m).isSome) := by
  obtain ⟨r1, r2, r3, r4⟩ := ptmx_scan_char ttys 0
  unfold ptmx_open
  constructor
  · constructor
    · intro he n hn
      by_cases hq : ptmx_scan ttys 0 = MAX_PTYS
      · exact r4 n (Nat.zero_le n) (by omega)
      · rw [if_neg hq] at he
        exact absurd he (by simp)
    · intro hall
      have hq : ptmx_scan ttys 0 = MAX_PTYS := by
        rcases Nat.lt_or_ge (ptmx_scan ttys 0) MAX_PTYS with hlt | hge2
        · have h3 := r3 hlt
          have h4 := hall _ hlt
          rw [h3] at h4
          simp at h4
        · have h5 := r2 (Nat.zero_le _)
          omega
      rw [if_pos hq]
  · intro n halloc
    by_cases hq : ptmx_scan ttys 0 = MAX_PTYS
    · rw [if_pos hq] at halloc
      exact absurd halloc (by simp)
    · rw [if_neg hq] at halloc
      have hn : n = ptmx_scan ttys 0 := by
        cases halloc
        rfl
      subst hn
      have h5 := r2 (Nat.zero_le _)
      refine ⟨by omega, r3 (by omega), ?_⟩
      intro m hm
      exact r4 m (Nat.zero_le m) hm

/-- Witness for C5: on a completely full table the allocator reports
resource exhaustion. -/
theorem ptmx_open_first_free_or_nospc_witness :
    ptmx_open (fun _ => some 0) = PtmxResult.err _ENOSPC :=
  (ptmx_open_first_free_or_nospc (fun _ => some 0)).1.mpr
    (fun _ _ => rfl)

/-- C6: with the pair link present, `TIOCSPTLCK_` sets the slave's lock
flag from the boolean encoding of the argument and succeeds,
`TIOCGPTN_` writes the slave's number into the argument and succeeds, and
any other command fails with `_EINVAL`, changing nothing; moreover on a
state produced by `pty_master_init` on a master numbered `N`,
`TIOCGPTN_` returns exactly `N` (the pair number assigned at
allocation). -/
theorem pty_ioctl_cases (h : Heap) (tId sId : Nat) (t s : TtyObj)
    (arg : Nat) (ht : h tId = some t) (hlink : t.other = some sId)
    (hs : h sId = some s) :
    (pty_ioctl h tId TIOCSPTLCK_ arg =
      some (hupd h sId { s with locked := arg ≠ 0 }, 0, arg)) ∧
    (pty_ioctl h tId TIOCGPTN_ arg = some (h, 0, s.num)) ∧
    (∀ cmd : Int, cmd ≠ TIOCSPTLCK_ → cmd ≠ TIOCGPTN_ →
      pty_ioctl h tId cmd arg = some (h, _EINVAL, arg)) ∧
    (∀ h0 ttys0 m0 h' ttys' r, h0 tId = some m0 → sId ≠ tId →
      pty_master_init h0 ttys0 tId sId = some (h', ttys', r) →
      pty_ioctl h' tId TIOCGPTN_ arg = some (h', 0, m0.num)) := by
  have hd : TIOCGPTN_ ≠ TIOCSPTLCK_ := by decide
  refine ⟨?_, ?_, ?_, ?_⟩
  · simp only [pty_ioctl, ht, hlink, hs, if_pos rfl]
    simp
  · simp only [pty_ioctl, ht, hlink, hs, if_neg hd, if_pos rfl]
    simp
  · intro cmd hc1 hc2
    simp only [pty_ioctl, ht, if_neg hc1, if_neg hc2]
  · intro h0 ttys0 m0 h' ttys' r hm0 hne hinit
    simp only [pty_master_init, hm0, Option.some.injEq,
      Prod.mk.injEq] at hinit
    obtain ⟨hh, hty, hr⟩ := hinit
    have ht' : h' tId = some { m0 with other := some sId } := by
      rw [← hh]
      unfold hupd
      simp
    have hs' : h' sId = some ⟨m0.num, 1, some tId, true⟩ := by
      rw [← hh]
      unfold hupd tty_alloc
      simp [hne]
    simp only [pty_ioctl, ht', hs', if_neg hd, if_pos rfl]
    simp

/-- Witness for C6 at a concrete linked pair. -/
theorem pty_ioctl_cases_witness :
    pty_ioctl
      (fun i => if i = 0 then some ⟨3, 1, some 1, false⟩
                else if i = 1 then some ⟨3, 1, some 0, true⟩
                else none) 0 TIOCGPTN_ 0 =
      some ((fun i => if i = 0 then some ⟨3, 1, some 1, false⟩
                else if i = 1 then some ⟨3, 1, some 0, true⟩
                else none), 0, (⟨3, 1, some 0, true⟩ : TtyObj).num) :=
  (pty_ioctl_cases _ 0 1 _ _ 0 rfl rfl rfl).2.1

/-- C10: `pty_write` always, and `pty_ioctl` on its two recognized
commands, dereference the pair link with no absence check: with the link
absent they crash (embedded `none`), with it present they are total.
`pty_master_init` establishes the master's link, the only core operation
that writes any state on a live pair (`pty_ioctl`) leaves the master's
object untouched, and after `pty_master_cleanup` the slave's link is
absent, so a slave-side write would crash. -/
theorem pty_write_ioctl_deref_precondition :
    (∀ (t : TtyObj) buf blocking, t.other = none →
      pty_write t buf blocking = none) ∧
    (∀ (h : Heap) tId (t : TtyObj) arg, h tId = some t → t.other = none →
      pty_ioctl h tId TIOCGPTN_ arg = none ∧
      pty_ioctl h tId TIOCSPTLCK_ arg = none) ∧
    (∀ (t : TtyObj) buf blocking sId, t.other = some sId →
      pty_write t buf blocking = some (sId, buf, blocking)) ∧
    (∀ (h : Heap) tId (t : TtyObj) sId s cmd arg, h tId = some t →
      t.other = some sId → h sId = some s →
      pty_ioctl h tId cmd arg ≠ none) ∧
    (∀ (h : Heap) ttys mId sId m, h mId = some m → sId ≠ mId →
      ∃ h' ttys', pty_master_init h ttys mId sId = some (h', ttys', 0) ∧
        ∃ m', h' mId = some m' ∧ m'.other = some sId) ∧
    (∀ (h : Heap) tId (t : TtyObj) sId s cmd arg h2 r a2,
      h tId = some t → t.other = some sId → h sId = some s → tId ≠ sId →
      pty_ioctl h tId cmd arg = some (h2, r, a2) → h2 tId = h tId) ∧
    (∀ (h : Heap) mId sId m s h' evs, h mId = some m →
      m.other = some sId → h sId = some s →
      pty_master_cleanup h mId = some (h', evs) →
      ∃ s', h' sId = some s' ∧ s'.other = none ∧
        ∀ buf blocking, pty_write s' buf blocking = none) := by
  have hd : TIOCGPTN_ ≠ TIOCSPTLCK_ := by decide
  refine ⟨?_, ?_, ?_, ?_, ?_, ?_, ?_⟩
  · intro t buf blocking hno
    simp only [pty_write, hno]
  · intro h tId t arg ht hno
    constructor
    · simp only [pty_ioctl, ht, hno, if_neg hd, if_pos rfl]
      simp
    · simp only [pty_ioctl, ht, hno, if_pos rfl]
      simp
  · intro t buf blocking sId hl
    simp only [pty_write, hl]
  · intro h tId t sId s cmd arg ht hl hs
    by_cases hc1 : cmd = TIOCSPTLCK_
    · simp only [pty_ioctl, ht, hl, hs, if_pos hc1]
      simp
    · by_cases hc2 : cmd = TIOCGPTN_
      · simp only [pty_ioctl, ht, hl, hs, if_neg hc1, if_pos hc2]
        simp
      · simp only [pty_ioctl, ht, if_neg hc1, if_neg hc2]
        simp
  · intro h ttys mId sId m hm hne
    refine ⟨hupd (hupd h sId ⟨m.num, 1, some mId, true⟩) mId
        ⟨m.num, m.refcount, some sId, m.locked⟩,
      fun n => if n = m.num then some sId else ttys n, ?_,
      ⟨m.num, m.refcount, some sId, m.locked⟩, ?_, rfl⟩
    · simp only [pty_master_init, hm, tty_alloc]
    · unfold hupd
      simp
  · intro h tId t sId s cmd arg h2 r a2 ht hl hs hne hres
    by_cases hc1 : cmd = TIOCSPTLCK_
    · simp only [pty_ioctl, ht, hl, hs, if_pos hc1,
        Option.some.injEq, Prod.mk.injEq] at hres
      obtain ⟨hh, -, -⟩ := hres
      rw [← hh]
      unfold hupd
      rw [if_neg hne]
    · by_cases hc2 : cmd = TIOCGPTN_
      · simp only [pty_ioctl, ht, hl, hs, if_neg hc1, if_pos hc2,
          Option.some.injEq, Prod.mk.injEq] at hres
        obtain ⟨hh, -, -⟩ := hres
        rw [← hh]
      · simp only [pty_ioctl, ht, if_neg hc1, if_neg hc2,
          Option.some.injEq, Prod.mk.injEq] at hres
        obtain ⟨hh, -, -⟩ := hres
        rw [← hh]
  · intro h mId sId m s h' evs hm hl hs hres
    simp only [pty_master_cleanup, hm, hl, hs, Option.some.injEq,
      Prod.mk.injEq] at hres
    obtain ⟨hh, -⟩ := hres
    refine ⟨⟨s.num, s.refcount - 1, none, s.locked⟩, ?_, rfl, ?_⟩
    · rw [← hh]
      unfold hupd
      simp
    · intro buf blocking
      simp only [pty_write]

/-- Witness for C10: a slave with the link cleared crashes `pty_write`. -/
theorem pty_write_ioctl_deref_precondition_witness :
    pty_write ⟨3, 0, none, true⟩ [65] true = none :=
  pty_write_ioctl_deref_precondition.1 ⟨3, 0, none, true⟩ [65] true rfl

/-- C8: one readdir call yields the smallest present pair number at or
after the handle's cursor (the code starts its do-loop at `offset - 1`
and increments before testing, so `offset` is the first candidate),
reporting the decimal-string name and inode `number + 3`; it reports "no
more entries" exactly when no slot at or after the cursor and below
`MAX_PTYS` is present; consequently consecutive calls (each restarted
just past the previous entry) yield strictly increasing numbers with no
present slot skipped. -/
theorem devpts_readdir_enumeration (ttys : Nat → Option Nat)
    (offset : Nat) :
    (devpts_readdir ttys offset = none ↔
      ∀ m, offset ≤ m → m < MAX_PTYS → ttys m = none) ∧
    (∀ n name ino, devpts_readdir ttys offset = some (n, name, ino) →
      offset ≤ n ∧ n < MAX_PTYS ∧ (ttys n).isSome ∧
      (∀ m, offset ≤ m → m < n → ttys m = none) ∧
      name = natToString n ∧ ino = n + 3) ∧
    (∀ n, offset ≤ n → n < MAX_PTYS → (ttys n).isSome →
      (∀ m, offset ≤ m → m < n → ttys m = none) →
      devpts_readdir ttys offset = some (n, natToString n, n + 3)) ∧
    (∀ n name ino n2 name2 ino2,
      devpts_readdir ttys offset = some (n, name, ino) →
      devpts_readdir ttys (n + 1) = some (n2, name2, ino2) →
      n < n2 ∧ ∀ m, n < m → m < n2 → ttys m = none) := by
  have key : ∀ off n name ino,
      devpts_readdir ttys off = some (n, name, ino) →
      off ≤ n ∧ n < MAX_PTYS ∧ (ttys n).isSome ∧
      (∀ m, off ≤ m → m < n → ttys m = none) ∧
      name = natToString n ∧ ino = n + 3 := by
    intro off n name ino hres
    obtain ⟨r1, r2, r3, r4⟩ := readdirScan_char ttys off
    unfold devpts_readdir at hres
    by_cases hq : readdirScan ttys off ≥ MAX_PTYS
    · rw [if_pos hq] at hres
      exact absurd hres (by simp)
    · rw [if_neg hq] at hres
      simp only [Option.some.injEq, Prod.mk.injEq] at hres
      obtain ⟨e1, e2, e3⟩ := hres
      subst e1
      exact ⟨r1, by omega, r3 (by omega), fun m h1 h2 => r4 m h1 h2,
        e2.symm, e3.symm⟩
  obtain ⟨r1, r2, r3, r4⟩ := readdirScan_char ttys offset
  refine ⟨⟨?_, ?_⟩, key offset, ?_, ?_⟩
  · intro hnone m h1 h2
    by_cases hq : readdirScan ttys offset ≥ MAX_PTYS
    · exact r4 m h1 (by omega)
    · unfold devpts_readdir at hnone
      rw [if_neg hq] at hnone
      exact absurd hnone (by simp)
  · intro hall
    have hq : readdirScan ttys offset ≥ MAX_PTYS := by
      by_contra hq
      have h3 := r3 (by omega)
      have h4 := hall _ r1 (by omega)
      rw [h4] at h3
      simp at h3
    unfold devpts_readdir
    rw [if_pos hq]
  · intro n h1 h2 h3 h4
    have hn : readdirScan ttys offset = n := by
      rcases Nat.lt_trichotomy (readdirScan ttys offset) n with hlt | heq | hgt
      · have hs := r3 (by omega)
        have h5 := h4 _ r1 hlt
        rw [h5] at hs
        simp at hs
      · exact heq
      · have h5 := r4 n h1 hgt
        rw [h5] at h3
        simp at h3
    unfold devpts_readdir
    rw [hn, if_neg (by omega)]
  · intro n name ino n2 name2 ino2 hres1 hres2
    obtain ⟨-, -, -, -, -, -⟩ := key offset n name ino hres1
    obtain ⟨s1, -, -, s4, -, -⟩ := key (n + 1) n2 name2 ino2 hres2
    exact ⟨by omega, fun m hm1 hm2 => s4 m (by omega) hm2⟩

/-- Witness for C8: with only slot 5 present and cursor 2, readdir yields
entry 5 with inode 8. -/
theorem devpts_readdir_enumeration_witness :
    devpts_readdir (fun n => if n = 5 then some 9 else none) 2 =
      some (5, natToString 5, 5 + 3) :=
  (devpts_readdir_enumeration (fun n => if n = 5 then some 9 else none)
      2).2.2.1 5 (by decide) (by decide) (by decide)
    (fun m h1 h2 => by interval_cases m <;> rfl)

theorem devpts_pty_exists_at_capacity (ttys : Nat → Option Nat)
    (hadj : ttys MAX_PTYS = none) :
    devpts_pty_exists ttys (Int.ofNat MAX_PTYS) = false := by
  unfold devpts_pty_exists
  simp only [Int.ofNat_eq_natCast]
  rw [if_neg (by omega)]
  simp [hadj]

theorem devpts_pty_exists_above_capacity (ttys : Nat → Option Nat)
    (v : Nat) (h : v > MAX_PTYS) :
    devpts_pty_exists ttys (Int.ofNat v) = false := by
  unfold devpts_pty_exists
  simp only [Int.ofNat_eq_natCast]
  rw [if_pos (by omega)]

/-- C7 (counterexample): on a table with no slave present at any in-range
slot, but whose adjacent memory word (index `MAX_PTYS`) is nonzero, the
path "/4096" — which names a number outside the table's domain, hence
absent — does not fail with not-found: resolution returns 4096 and open
succeeds, while the spec-side resolution says not-found. -/
theorem devpts_out_of_range_path_resolves :
    devpts_get_pty_num (fun n => if n = MAX_PTYS then some 0 else none)
      [47, 52, 48, 57, 54] = 4096 ∧
    devpts_resolve_spec (fun n => if n = MAX_PTYS then some 0 else none)
      [47, 52, 48, 57, 54] = PathResolution.notFound ∧
    devpts_open (fun n => if n = MAX_PTYS then some 0 else none)
      [47, 52, 48, 57, 54] = Except.ok 4096 :=
  ⟨by decide, by decide, rfl⟩

/-- C7 (amended): provided the memory word one past the Global Slave
Table reads as a null pointer, `devpts_get_pty_num` agrees exactly with
the spec's tagged resolution under the encoding root ↦ -1,
number ↦ itself, not-found ↦ `_ENOENT` = -2 (so root is never conflated
with not-found), and `devpts_open` fails with not-found exactly on
not-found, producing the handle value otherwise. -/
theorem devpts_resolution_matches_spec (ttys : Nat → Option Nat)
    (path : List Nat) (hadj : ttys MAX_PTYS = none) :
    devpts_get_pty_num ttys path =
      encodeResolution (devpts_resolve_spec ttys path) ∧
    (devpts_open ttys path = Except.error _ENOENT ↔
      devpts_resolve_spec ttys path = PathResolution.notFound) ∧
    (devpts_resolve_spec ttys path = PathResolution.root →
      devpts_open ttys path = Except.ok (-1)) ∧
    (∀ n, devpts_resolve_spec ttys path = PathResolution.ptyNum n →
      devpts_open ttys path = Except.ok (Int.ofNat n)) := by
  have hmain : devpts_get_pty_num ttys path =
      encodeResolution (devpts_resolve_spec ttys path) := by
    cases path with
    | nil => rfl
    | cons c rest =>
      by_cases hc : c = 47
      · subst hc
        by_cases hr : rest = []
        · simp [devpts_get_pty_num, devpts_resolve_spec, hr,
            encodeResolution]
        · by_cases hdig : isdigits rest = true
          · have hslash : strchr_slash rest = false :=
              strchr_slash_eq_false_of_isdigits rest hdig
            by_cases hbig : digitsToNat rest > INT_MAX
            · simp [devpts_get_pty_num, devpts_resolve_spec, hr, hdig,
                hslash, hbig, encodeResolution, Nat.not_le.mpr hbig]
            · have hle : digitsToNat rest ≤ INT_MAX := Nat.not_lt.mp hbig
              rcases Nat.lt_trichotomy (digitsToNat rest) MAX_PTYS with
                hlt | heq | hgt
              · have hx := devpts_pty_exists_inbounds ttys
                  (digitsToNat rest) hlt
                simp only [Int.ofNat_eq_natCast] at hx
                by_cases hpres : (ttys (digitsToNat rest)).isSome = true
                · simp [devpts_get_pty_num, devpts_resolve_spec, hr,
                    hdig, hslash, hbig, hx, hpres, hle, hlt,
                    encodeResolution]
                · simp [devpts_get_pty_num, devpts_resolve_spec, hr,
                    hdig, hslash, hbig, hx, hpres, encodeResolution]
              · have hx := devpts_pty_exists_at_capacity ttys hadj
                simp only [Int.ofNat_eq_natCast] at hx
                simp [devpts_get_pty_num, devpts_resolve_spec, hr, hdig,
                  hslash, hbig, hx, encodeResolution, heq]
              · have hx := devpts_pty_exists_above_capacity ttys
                  (digitsToNat rest) hgt
                simp only [Int.ofNat_eq_natCast] at hx
                simp [devpts_get_pty_num, devpts_resolve_spec, hr, hdig,
                  hslash, hbig, hx, encodeResolution, Nat.lt_asymm hgt]
          · simp [devpts_get_pty_num, devpts_resolve_spec, hr, hdig,
              encodeResolution]
      · simp [devpts_get_pty_num, devpts_resolve_spec, hc,
          encodeResolution]
  have hopen_eq : devpts_open ttys path =
      (if devpts_get_pty_num ttys path = _ENOENT
       then Except.error _ENOENT
       else Except.ok (devpts_get_pty_num ttys path)) := rfl
  have hroot_ne : ¬ ((-1 : Int) = _ENOENT) := by norm_num [_ENOENT]
  have hnum_ne : ∀ n : Nat, ¬ (Int.ofNat n = _ENOENT) := by
    intro n
    simp only [Int.ofNat_eq_natCast, _ENOENT]
    omega
  refine ⟨hmain, ?_, ?_, ?_⟩
  · constructor
    · intro herr
      cases hres : devpts_resolve_spec ttys path with
      | root =>
        rw [hopen_eq, hmain, hres] at herr
        simp only [encodeResolution] at herr
        rw [if_neg hroot_ne] at herr
        exact absurd herr (by simp)
      | ptyNum n =>
        rw [hopen_eq, hmain, hres] at herr
        simp only [encodeResolution] at herr
        rw [if_neg (hnum_ne n)] at herr
        exact absurd herr (by simp)
      | notFound => rfl
    · intro hres
      rw [hopen_eq, hmain, hres]
      simp only [encodeResolution]
      simp
  · intro hres
    rw [hopen_eq, hmain, hres]
    simp only [encodeResolution]
    rw [if_neg hroot_ne]
  · intro n hres
    rw [hopen_eq, hmain, hres]
    simp only [encodeResolution]
    rw [if_neg (hnum_ne n)]

/-- Witness for C7 at a concrete table (slot 3 present, adjacent word
null) and the path "/3". -/
theorem devpts_resolution_matches_spec_witness :
    devpts_get_pty_num (fun k => if k = 3 then some 0 else none)
      [47, 51] = 3 :=
  ((devpts_resolution_matches_spec
      (fun k => if k = 3 then some 0 else none) [47, 51]
      (by decide)).1).trans (by decide)

/-- C9 (counterexample): resolution accepts digit strings with leading
zeros, but getpath prints the canonical decimal form, so getpath is not a
full inverse of resolution: with slot 0 present, open accepts "/00" and
produces the handle number 0, whose getpath is "/0" ≠ "/00". -/
theorem devpts_getpath_not_inverse_on_leading_zeros :
    devpts_open (fun n => if n = 0 then some 0 else none) [47, 48, 48] =
      Except.ok 0 ∧
    devpts_getpath 0 = [47, 48] ∧
    devpts_getpath 0 ≠ [47, 48, 48] := by
  have hns : natToString 0 = [48] := by
    rw [natToString]
    norm_num
  have hgp : devpts_getpath 0 = [47, 48] := by
    unfold devpts_getpath sprintf_d
    norm_num [hns]
  refine ⟨rfl, hgp, ?_⟩
  rw [hgp]
  decide

/-- Inversion of a successful (nonnegative) resolution: the path was
`'/'` followed by a nonempty all-digit string whose value is the result. -/
theorem devpts_get_pty_num_inv (ttys : Nat → Option Nat)
    (path : List Nat) (n : Nat)
    (h : devpts_get_pty_num ttys path = Int.ofNat n) :
    ∃ ds, path = 47 :: ds ∧ ds ≠ [] ∧ isdigits ds = true ∧
      digitsToNat ds = n := by
  have hne2 : (_ENOENT : Int) ≠ Int.ofNat n := by
    simp only [Int.ofNat_eq_natCast, _ENOENT]
    omega
  cases path with
  | nil =>
    simp only [devpts_get_pty_num, Int.ofNat_eq_natCast] at h
    omega
  | cons c rest =>
    simp only [devpts_get_pty_num] at h
    split at h
    · exact absurd h hne2
    · split at h
      · exact absurd h hne2
      · split at h
        · exact absurd h hne2
        · split at h
          · exact absurd h hne2
          · next hA hB hC hD =>
            push_neg at hA
            refine ⟨rest, ?_, hA.2.1, not_not.mp hB, Int.ofNat.inj h⟩
            rw [hA.1]

/-- C9 (amended): getpath produces `""` for the root sentinel and
`"/" ++ <canonical decimal>` for a pair number; resolution therefore
round-trips through getpath exactly on the accepted paths whose digit
string is in canonical form (no leading zero, or the single digit "0") —
paths with leading zeros resolve but re-print canonically. -/
theorem devpts_getpath_inverse_canonical :
    devpts_getpath (-1) = [] ∧
    (∀ n : Nat, devpts_getpath (Int.ofNat n) = 47 :: natToString n) ∧
    (∀ (ttys : Nat → Option Nat) (path : List Nat) (n : Nat),
      devpts_get_pty_num ttys path = Int.ofNat n →
      ((path.drop 1).head? = some 48 → path.drop 1 = [48]) →
      devpts_getpath (Int.ofNat n) = path) := by
  have hpos : ∀ n : Nat,
      devpts_getpath (Int.ofNat n) = 47 :: natToString n := by
    intro n
    have e1 : ¬ ((n : Int) = -1) := by omega
    have e2 : ¬ ((n : Int) < 0) := by omega
    unfold devpts_getpath sprintf_d
    simp only [Int.ofNat_eq_natCast]
    rw [if_neg e1, if_neg e2, Int.toNat_ofNat]
  refine ⟨rfl, hpos, ?_⟩
  intro ttys path n hres hcanon
  obtain ⟨ds, hpath, hne, hdig, hval⟩ :=
    devpts_get_pty_num_inv ttys path n hres
  subst hpath
  simp only [List.drop_succ_cons, List.drop_zero] at hcanon
  rw [hpos n]
  congr 1
  rw [← hval]
  exact natToString_digitsToNat ds hdig hne hcanon

/-- Witness for C9: with slot 1 present, the canonical path "/1" resolves
to 1 and getpath reproduces it. -/
theorem devpts_getpath_inverse_canonical_witness :
    devpts_getpath (Int.ofNat 1) = [47, 49] :=
  devpts_getpath_inverse_canonical.2.2
    (fun k => if k = 1 then some 0 else none) [47, 49] 1
    (by decide) (by decide)
